import Mathlib

/-!
Verification development for the clinic locator core
(`services/clinic_dataset_service.py` and `scripts/build_dataset.py`).

Modelling conventions used throughout:

* Python strings are modelled as `List Char` (`Str`). Python's `str.strip`
  is `pyStrip`, `int(...)` applied to a string is `pyInt`, `str.lower` is
  `pyLower`, and `str.isdigit` is `Char.isDigit` (restricted to ASCII
  digits, which is what the dataset contains).
* Timezone-aware instants (`datetime` in the fixed zone `Asia/Tokyo`) are
  modelled as integer seconds counted from an (arbitrary) Monday 00:00
  local midnight, so `weekday()` (Monday = 0) is the day index modulo 7 and
  one calendar day is exactly 86400 seconds.  `datetime.date()` is `dateOf`,
  `_make_dt` is `makeDt`, and `timedelta(days=1)` is `+ 86400`.
* A dataset row (a pandas `Series`) is modelled by `CRow`: the coordinate
  cells after `pd.to_numeric(..., errors="coerce")` (so `Option ℚ`, `none`
  being NaN), the name and specialty-list text cells (after `astype(str)`,
  with the Python code's `""` default when the column is absent), and the
  fourteen weekday reception-time cells `{月..日}_外来受付開始時間 /
  _外来受付終了時間`, indexed here by weekday number `Fin 7`; a missing
  column or a NaN cell is `none` (both make `_parse_hhmm` yield `None` in
  the source, so they are identified here).
* `pandas.Series.str.contains(pat)` uses `pat` as a regular expression
  (`regex=True` is the pandas default).  `reContains` models Python
  `re.search` for the fragment of patterns actually expressible by the
  code's `"|".join(keywords)` construction when every keyword is built from
  literal characters, the any-character metacharacter and alternation;
  patterns using other regex metacharacters are outside the model.
* The vectorised float computation `_haversine_km` is modelled over the
  reals (`haversineA`, `asinArgClamped`, `haversineKm`); the query engine
  `searchClinicsNearPoint` is therefore parameterised by the distance
  function `hav` (with exact rational distances), everything else in it is
  modelled directly.
* `pd.DataFrame.sort_values(by=[...], ascending=True)` sorts by the given
  keys; stability is not relied upon by any statement here, and the sort is
  realised by `List.insertionSort` on the lexicographic key relation.
-/

set_option maxRecDepth 8000

namespace MediGate

/-- Python strings, modelled as lists of characters. -/
abbrev Str := List Char

/-- Python `str.strip()`: remove leading and trailing whitespace. -/
def pyStrip (s : Str) : Str :=
  ((s.dropWhile Char.isWhitespace).reverse.dropWhile Char.isWhitespace).reverse

/-- Python `str.lower()` (ASCII letters; the source only compares against "nan"). -/
def pyLower (s : Str) : Str :=
  s.map Char.toLower

/-- Numeric value of a list of ASCII digits, most significant first. -/
def digitsVal (s : Str) : Nat :=
  s.foldl (fun n c => 10 * n + (c.toNat - 48)) 0

/-- Whether `s` is nonempty and consists only of ASCII digits. -/
def allDigits (s : Str) : Bool :=
  !s.isEmpty && s.all Char.isDigit

/-- Python `int(s)` on a string: optional surrounding whitespace, optional
sign, then a nonempty digit string; anything else raises (here: `none`). -/
def pyInt (s : Str) : Option Int :=
  match pyStrip s with
  | [] => none
  | '+' :: rest => if allDigits rest then some ((digitsVal rest : Nat) : Int) else none
  | '-' :: rest => if allDigits rest then some (-((digitsVal rest : Nat) : Int)) else none
  | t => if allDigits t then some ((digitsVal t : Nat) : Int) else none

/-- A time of day, as produced by `datetime.time(hh, mm)` in `_parse_hhmm`. -/
structure Tod where
  hour : Nat
  minute : Nat
  deriving DecidableEq, Repr

/-- The digits fallback of `_parse_hhmm`: keep only digit characters, pad a
3-digit result to 4 with a leading `'0'`, then read `HHMM` with the range
checks `0 ≤ hh ≤ 23`, `0 ≤ mm ≤ 59` (the `int` calls cannot fail on digit
strings). -/
def digitsBranch (s : Str) : Option Tod :=
  let ds0 := s.filter Char.isDigit
  let ds := if ds0.length = 3 then '0' :: ds0 else ds0
  if ds.length = 4 then
    let hh := digitsVal (ds.take 2)
    let mm := digitsVal (ds.drop 2)
    if hh ≤ 23 ∧ mm ≤ 59 then some ⟨hh, mm⟩ else none
  else none

/-- Embedding of `_parse_hhmm` on a string argument (`str(x).strip()` has
already been applied to non-`None`, non-NaN cell values; `parseCell` below
handles the `None`/NaN guard).  Control flow follows the source: if the
string contains `':'` and both of the first two colon-separated fields
parse as Python ints, an in-range pair returns immediately and an
out-of-range pair falls through to the digits branch, while a field that
fails `int()` returns `None` at once. -/
def parseHhmm (x : Str) : Option Tod :=
  let s := pyStrip x
  if s.isEmpty then none
  else if s.contains ':' then
    match s.splitOn ':' with
    | p1 :: p2 :: _ =>
      match pyInt p1, pyInt p2 with
      | some hh, some mm =>
        if 0 ≤ hh ∧ hh ≤ 23 ∧ 0 ≤ mm ∧ mm ≤ 59 then some ⟨hh.toNat, mm.toNat⟩
        else digitsBranch s
      | _, _ => none
    | _ => digitsBranch s
  else digitsBranch s

/-- Embedding of `_parse_hhmm` on a cell: `None` and NaN cells (and cells of
columns absent from the row) parse to `None`. -/
def parseCell (x : Option Str) : Option Tod :=
  match x with
  | none => none
  | some s => parseHhmm s

/-- Calendar date of an instant (day number; instants are seconds from a
Monday 00:00 in the fixed zone). -/
def dateOf (t : Int) : Int :=
  t.fdiv 86400

/-- Python `datetime.weekday()` (Monday = 0) for an instant. -/
def weekdayI (t : Int) : Int :=
  (t.fdiv 86400) % 7

/-- Coerce a (mod-7) weekday number into the index type of the fourteen
weekday-schedule cells, as `WEEKDAY_PREFIX.get(wd % 7)` does. -/
def dayIdx (w : Int) : Fin 7 :=
  ⟨(w % 7).toNat % 7, by omega⟩

/-- Embedding of `_make_dt`: the instant at time-of-day `t` on date `d`. -/
def makeDt (d : Int) (t : Tod) : Int :=
  d * 86400 + ((t.hour * 3600 + t.minute * 60 : Nat) : Int)

/-- One dataset row (see the module docstring for the cell conventions). -/
structure CRow where
  lat : Option ℚ
  lng : Option ℚ
  name : Str
  dept : Str
  sched : Fin 7 → Option Str × Option Str

/-- Embedding of `_minutes_to_close`: minutes left until today's reception
window closes, `none` outside the window or when the times do not parse. -/
def minutesToClose (r : CRow) (now : Int) : Option Int :=
  let cols := r.sched (dayIdx (weekdayI now))
  match parseCell cols.1, parseCell cols.2 with
  | some st_t, some ed_t =>
    let start_dt := makeDt (dateOf now) st_t
    let end_dt0 := makeDt (dateOf now) ed_t
    let end_dt := if end_dt0 ≤ start_dt then end_dt0 + 86400 else end_dt0
    if start_dt ≤ now ∧ now ≤ end_dt then some (max ((end_dt - now).fdiv 60) 0)
    else none
  | _, _ => none

/-- Embedding of `_status_label`. -/
def statusLabel (m : Option Int) (soon_close_threshold_min : Int) : Str :=
  match m with
  | none => "受付時間不明/受付外".toList
  | some v =>
    if v ≤ soon_close_threshold_min then "🟠 もうすぐ受付終了".toList
    else "🟢 受付中".toList

/-- Loop body of `_next_reception_start`, recursing over the remaining
day offsets (`continue` recurses, `return` stops). -/
def nextRecAux (r : CRow) (now : Int) : List Nat → Option Int
  | [] => none
  | offset :: rest =>
    let cols := r.sched (dayIdx (weekdayI now + (offset : Int)))
    match parseCell cols.1, parseCell cols.2 with
    | some st_t, some ed_t =>
      let d := dateOf now + (offset : Int)
      let start_dt := makeDt d st_t
      let end_dt0 := makeDt d ed_t
      let end_dt := if end_dt0 ≤ start_dt then end_dt0 + 86400 else end_dt0
      if offset = 0 then
        if now < start_dt then some start_dt
        else if start_dt ≤ now ∧ now ≤ end_dt then none
        else nextRecAux r now rest
      else some start_dt
    | _, _ => nextRecAux r now rest

/-- Embedding of `_next_reception_start`: scan day offsets `0..6`. -/
def nextReceptionStart (r : CRow) (now : Int) : Option Int :=
  nextRecAux r now (List.range 7)

/-- The `minutes_until_close` contract as the spec words it (claim C2):
resolve now's day category, parse that day's start and end (either
unparseable gives `none`), build both instants on now's calendar date, add
24 hours to the end when end ≤ start, and return `floor((end - now) in
minutes)` clamped to `≥ 0` exactly when `start ≤ now ≤ end`, else `none`. -/
def minutesUntilCloseClaim (r : CRow) (now : Int) : Option Int :=
  match parseCell (r.sched (dayIdx (weekdayI now))).1,
        parseCell (r.sched (dayIdx (weekdayI now))).2 with
  | some st, some ed =>
    let s := makeDt (dateOf now) st
    let e0 := makeDt (dateOf now) ed
    let e := if e0 ≤ s then e0 + 24 * 60 * 60 else e0
    if s ≤ now ∧ now ≤ e then some (max 0 ((e - now).fdiv 60)) else none
  | _, _ => none

/-- One scanned day of the `next_opening` contract as the spec words it
(claim C7, offsets `> 0`): a day whose start and end both parse yields that
day's start instant. -/
def scanDayClaim (r : CRow) (now : Int) (o : Nat) : Option Int :=
  match parseCell (r.sched (dayIdx (weekdayI now + (o : Int)))).1,
        parseCell (r.sched (dayIdx (weekdayI now + (o : Int)))).2 with
  | some st, some _ => some (makeDt (dateOf now + (o : Int)) st)
  | _, _ => none

/-- The `next_opening` contract as the spec words it (claim C7): at offset 0
return today's start if both times parse and `now < start`, `none` if `now`
is inside today's (possibly midnight-rolled) window, otherwise the first
offset in `1..6` whose start and end both parse gives that day's start;
`none` when the scan is exhausted. -/
def nextOpeningClaim (r : CRow) (now : Int) : Option Int :=
  match parseCell (r.sched (dayIdx (weekdayI now))).1,
        parseCell (r.sched (dayIdx (weekdayI now))).2 with
  | some st, some ed =>
    let s := makeDt (dateOf now) st
    let e0 := makeDt (dateOf now) ed
    let e := if e0 ≤ s then e0 + 86400 else e0
    if now < s then some s
    else if s ≤ now ∧ now ≤ e then none
    else (List.range' 1 6).findSome? (scanDayClaim r now)
  | _, _ => (List.range' 1 6).findSome? (scanDayClaim r now)

/-- Helper for the amended claim C5: a `(hour, minute)` pair subject to the
range checks `hour ≤ 23`, `minute ≤ 59`. -/
def mkTodIfValid (hh mm : Nat) : Option Tod :=
  if hh ≤ 23 ∧ mm ≤ 59 then some ⟨hh, mm⟩ else none

/-- The digits rule as the amended claim C5 words it: remove every
non-digit character of the stripped input; exactly 3 remaining digits are
read as `HMM` and exactly 4 as `HHMM`, under the usual range checks;
anything else is unparseable. -/
def digitRuleClaim (s : Str) : Option Tod :=
  let ds := (pyStrip s).filter Char.isDigit
  if ds.length = 3 then mkTodIfValid (digitsVal (ds.take 1)) (digitsVal (ds.drop 1))
  else if ds.length = 4 then mkTodIfValid (digitsVal (ds.take 2)) (digitsVal (ds.drop 2))
  else none

/-- The `_parse_hhmm` contract as the amended claim C5 words it: a string
containing a colon has its first two colon fields read as Python integers —
a field that fails integer parsing yields `none`, an in-range pair (hour
0–23, minute 0–59) is the result, and an out-of-range pair falls through to
the digit rule; every other input goes to the digit rule directly: strip
the input, remove its non-digit characters, and read exactly 3 or 4
remaining digits as `HMM`/`HHMM` under the same range checks, anything
else being `none`. -/
def parseTimeOfDayClaim (x : Str) : Option Tod :=
  let s := pyStrip x
  if s.contains ':' then
    match s.splitOn ':' with
    | p1 :: p2 :: _ =>
      match pyInt p1, pyInt p2 with
      | some hh, some mm =>
        if 0 ≤ hh ∧ hh ≤ 23 ∧ 0 ≤ mm ∧ mm ≤ 59 then some ⟨hh.toNat, mm.toNat⟩
        else digitRuleClaim x
      | _, _ => none
    | _ => digitRuleClaim x
  else digitRuleClaim x

/-- The ASCII digit character of `n < 10`. -/
def digitChar (n : Nat) : Char :=
  Char.ofNat (48 + n)

/-- Two-digit zero-padded decimal rendering of `n ≤ 99`. -/
def render2 (n : Nat) : Str :=
  [digitChar (n / 10), digitChar (n % 10)]

/-- Unpadded decimal rendering of an hour `n ≤ 23` (`"9"`, `"12"`). -/
def renderHour (n : Nat) : Str :=
  if n < 10 then [digitChar n] else render2 n

/-- A facility whose reception window is `22:00`–`02:00` on every day
category (claim C1's midnight-crossing example). -/
def crossRow : CRow where
  lat := some 0
  lng := some 0
  name := []
  dept := []
  sched := fun _ => (some ( "22:00".toList), some ( "02:00".toList))

/-- Value-cleaning step shared by the dataset builder's `_min_time` and
`_max_time`: strip the cell, then skip empty strings, `"nan"`
(case-insensitively) and `"0"`. -/
def cleanTime (v0 : Str) : Option Str :=
  let v := pyStrip v0
  if v = [] ∨ pyLower v = ( "nan".toList) ∨ v = ( "0".toList) then none else some v

/-- Python string `<`: lexicographic comparison by code point. -/
def strLt : Str → Str → Bool
  | [], [] => false
  | [], _ :: _ => true
  | _ :: _, [] => false
  | a :: as, b :: bs => if a < b then true else if b < a then false else strLt as bs

/-- Embedding of `build_dataset._min_time`: the (string-sorted) minimum of
the cleaned values of one facility group's column, `""` when none remain. -/
def minTime (l : List Str) : Str :=
  match l.filterMap cleanTime with
  | [] => []
  | v :: vs => vs.foldl (fun acc b => if strLt b acc then b else acc) v

/-- Embedding of `build_dataset._max_time`: the (string-sorted) maximum of
the cleaned values of one facility group's column, `""` when none remain. -/
def maxTime (l : List Str) : Str :=
  match l.filterMap cleanTime with
  | [] => []
  | v :: vs => vs.foldl (fun acc b => if strLt acc b then b else acc) v

/-- The merged dataset's aggregated `(start, end)` cell pair for one
facility and one day category: `agg_dict` applies `_min_time` to the day's
start column and `_max_time` to its end column over the facility's group of
specialty rows (`dep.groupby("ID").agg(agg_dict)`). -/
def mergeDayCell (starts ends : List Str) : Str × Str :=
  (minTime starts, maxTime ends)

/-- Embedding of `math.radians`. -/
noncomputable def radians (x : ℝ) : ℝ :=
  x * (Real.pi / 180)

/-- The haversine intermediate `a` of `_haversine_km` for one target row,
modelled over the reals. -/
noncomputable def haversineA (lat1 lng1 lat2 lng2 : ℝ) : ℝ :=
  let phi1 := radians lat1
  let lam1 := radians lng1
  let phi2 := radians lat2
  let lam2 := radians lng2
  let dphi := phi2 - phi1
  let dlam := lam2 - lam1
  Real.sin (dphi / 2) ^ 2 + Real.cos phi2 * Real.cos phi1 * Real.sin (dlam / 2) ^ 2

/-- The argument `min(1.0, sqrt(a))` that `_haversine_km` passes to
`math.asin`. -/
noncomputable def asinArgClamped (lat1 lng1 lat2 lng2 : ℝ) : ℝ :=
  min 1 (Real.sqrt (haversineA lat1 lng1 lat2 lng2))

/-- Embedding of `_haversine_km` for one target row: `c * r` with
`c = 2 * asin(min(1.0, sqrt(a)))` and `r = 6371.0`. -/
noncomputable def haversineKm (lat1 lng1 lat2 lng2 : ℝ) : ℝ :=
  2 * Real.arcsin (asinArgClamped lat1 lng1 lat2 lng2) * 6371.0

/-- One regex atom against one character: the any-character metacharacter
matches everything except a newline, any other (literal) character matches
itself. -/
def atomMatches (p c : Char) : Bool :=
  if p = '.' then c ≠ '\n' else p = c

/-- Whether an alternation-free regex branch (literal characters and the
any-character metacharacter) matches at the start of `s`. -/
def branchMatchesPrefix : Str → Str → Bool
  | [], _ => true
  | _ :: _, [] => false
  | p :: ps, c :: cs => atomMatches p c && branchMatchesPrefix ps cs

/-- Model of Python `re.search(pat, s) is not None` — hence of
`Series.str.contains(pat)`, whose default is `regex=True` — for the pattern
fragment reachable from the code's `"|".join(keywords)`: split `pat` into
its alternation branches and search every start position of `s`. -/
def reContains (pat s : Str) : Bool :=
  (List.range (s.length + 1)).any fun i =>
    (pat.splitOn '|').any fun b => branchMatchesPrefix b (s.drop i)

/-- The pattern `"|".join(keywords)` built by `search_clinics_near_point`. -/
def joinPat (kws : List Str) : Str :=
  List.intercalate ( "|".toList) kws

/-- The regular-expression metacharacters of Python `re` (the two brace
characters are written by code point). -/
def isReMeta (c : Char) : Bool :=
  c = '.' || c = '^' || c = '$' || c = '*' || c = '+' || c = '?' ||
  c = Char.ofNat 123 || c = Char.ofNat 125 || c = '[' || c = ']' ||
  c = '\\' || c = '|' || c = '(' || c = ')'

/-- Executable literal-substring test (Python `kw in s`). -/
def isSubstr (a b : Str) : Bool :=
  (List.range (b.length + 1)).any fun i => a.isPrefixOf (b.drop i)

/-- A result row of `search_clinics_near_point`: the input row plus the
derived columns the function keeps (`next_reception_label`, which is pure
string formatting of `next_reception_start`, is not modelled). -/
structure OutRow where
  base : CRow
  distance_km : ℚ
  minutes_to_close : Option Int
  reception_status : Str
  next_reception_start : Option Int

/-- The per-row annotation step of `search_clinics_near_point` (the two
`work.apply(..., axis=1)` calls and the status column). -/
def mkOutRow (now soon_close : Int) (rl : CRow × ℚ) : OutRow where
  base := rl.1
  distance_km := rl.2
  minutes_to_close := minutesToClose rl.1 now
  reception_status := statusLabel (minutesToClose rl.1 now) soon_close
  next_reception_start := nextReceptionStart rl.1 now

/-- Loop of `_row_dept_priority`: the index of the first truthy (nonempty)
keyword occurring in the row's specialty text, 999 when none does. -/
def rowDeptPriorityAux : List Str → Nat → Str → Nat
  | [], _, _ => 999
  | kw :: rest, i, s => if kw ≠ [] ∧ kw <:+: s then i else rowDeptPriorityAux rest (i + 1) s

/-- Embedding of `_row_dept_priority`. -/
def rowDeptPriority (kws : List Str) (s : Str) : Nat :=
  rowDeptPriorityAux kws 0 s

/-- The `_sort_dept_priority` column: `_row_dept_priority` of the row when
keywords were supplied, the constant 0 otherwise. -/
def sortDeptPriority (kws : List Str) (o : OutRow) : Nat :=
  if kws.isEmpty then 0 else rowDeptPriority kws o.base.dept

/-- The `_sort_mins` column: `minutes_to_close.fillna(10**9)`. -/
def sortMins (o : OutRow) : Int :=
  o.minutes_to_close.getD (10 ^ 9)

/-- The code's ascending three-key sort order (`_sort_dept_priority`, then
`_sort_mins`, then `distance_km`). -/
def sortRel (kws : List Str) (a b : OutRow) : Prop :=
  sortDeptPriority kws a < sortDeptPriority kws b ∨
    (sortDeptPriority kws a = sortDeptPriority kws b ∧
      (sortMins a < sortMins b ∨
        (sortMins a = sortMins b ∧ a.distance_km ≤ b.distance_km)))

instance instDecSortRel (kws : List Str) : DecidableRel (sortRel kws) := fun a b => by
  unfold sortRel
  infer_instance

/-- Minutes-until-close with `none` read as `+∞`, the claim C4 reading of
the second sort key. -/
def minsTop (o : OutRow) : WithTop Int :=
  match o.minutes_to_close with
  | none => ⊤
  | some m => (m : WithTop Int)

/-- The priority rank exactly as claim C4 words it: the index of the first
required-specialty keyword contained in the row's specialty text, 0 for
every row when no keywords were supplied. -/
def claimPriority (kws : List Str) (s : Str) : Nat :=
  if kws.isEmpty then 0 else kws.findIdx fun kw => decide (kw <:+: s)

/-- The ascending sort key exactly as claim C4 words it: (priority rank,
minutes-until-close with `none` as `+∞`, distance), lexicographically. -/
def claimKeyLE (kws : List Str) (a b : OutRow) : Prop :=
  claimPriority kws a.base.dept < claimPriority kws b.base.dept ∨
    (claimPriority kws a.base.dept = claimPriority kws b.base.dept ∧
      (minsTop a < minsTop b ∨ (minsTop a = minsTop b ∧ a.distance_km ≤ b.distance_km)))

instance instDecClaimKeyLE (kws : List Str) : DecidableRel (claimKeyLE kws) := fun a b => by
  unfold claimKeyLE
  infer_instance

/-- The ascending sort key of the amended claim C4: the code's priority
(first nonempty keyword contained in the specialty text, 999 when none
matches, 0 when no keywords were supplied), then minutes-until-close with
`none` as `+∞`, then distance. -/
def amendedKeyLE (kws : List Str) (a b : OutRow) : Prop :=
  sortDeptPriority kws a < sortDeptPriority kws b ∨
    (sortDeptPriority kws a = sortDeptPriority kws b ∧
      (minsTop a < minsTop b ∨ (minsTop a = minsTop b ∧ a.distance_km ≤ b.distance_km)))

/-- The dataset handed to `search_clinics_near_point`: whether the two
coordinate columns are present in the schema, and the rows. -/
structure Dataset where
  hasLatCol : Bool
  hasLngCol : Bool
  rows : List CRow

/-- The message of the `KeyError` raised on missing coordinate columns. -/
def keyErrorMsg : Str :=
  "Missing lat/lng columns: 所在地座標（緯度）, 所在地座標（経度）".toList

/-- The specialty-include step of `search_clinics_near_point`: when
keywords were supplied, keep rows whose specialty text matches the joined
regex pattern. -/
def specialtyIncludeStep (kws : List Str) (work : List (CRow × ℚ)) : List (CRow × ℚ) :=
  if kws.isEmpty then work
  else work.filter fun rl => reContains (joinPat kws) rl.1.dept

/-- The coordinate steps of `search_clinics_near_point`: drop rows whose
`to_numeric` coordinates are NaN, attach the distance from the origin, and
keep rows within the radius. -/
def coordRadiusStep (hav : ℚ → ℚ → ℚ → ℚ → ℚ) (base_lat base_lng radius_km : ℚ)
    (rows : List CRow) : List (CRow × ℚ) :=
  (rows.filterMap fun r =>
    match r.lat, r.lng with
    | some la, some ln => some (r, hav base_lat base_lng la ln)
    | _, _ => none).filter fun rl => rl.2 ≤ radius_km

/-- The specialty-exclude step: drop rows whose specialty text matches the
joined exclusion pattern (skipped for an empty keyword list). -/
def excludeDeptStep (exd : List Str) (work : List (CRow × ℚ)) : List (CRow × ℚ) :=
  if exd.isEmpty then work
  else work.filter fun rl => !reContains (joinPat exd) rl.1.dept

/-- The name-exclude step: drop rows whose name matches the joined
exclusion pattern (skipped for an empty keyword list). -/
def excludeNameStep (exn : List Str) (work : List (CRow × ℚ)) : List (CRow × ℚ) :=
  if exn.isEmpty then work
  else work.filter fun rl => !reContains (joinPat exn) rl.1.name

/-- The per-row annotation step (the `work.apply` calls). -/
def annotateStep (now soon : Int) (work : List (CRow × ℚ)) : List OutRow :=
  work.map (mkOutRow now soon)

/-- The `only_accepting_now` filter. -/
def onlyAcceptingStep (oa : Bool) (ann : List OutRow) : List OutRow :=
  if oa then ann.filter fun o => o.minutes_to_close.isSome else ann

/-- The three-key ascending sort (`sort_values`). -/
def sortStep (kws : List Str) (ann : List OutRow) : List OutRow :=
  ann.insertionSort (sortRel kws)

/-- The `head(limit)` truncation, applied only for positive `limit`. -/
def limitStep (limit : Int) (l : List OutRow) : List OutRow :=
  if 0 < limit then l.take limit.toNat else l

/-- Embedding of `search_clinics_near_point`.  `hav` stands for the
real-valued `_haversine_km` (see the module docstring), `now` for
`datetime.now(tz=JST)`; keyword arguments keep their source names.  Steps,
in source order: empty-dataset early return; coordinate-column check
(`KeyError`); drop rows with unparseable coordinates; distance and radius
filter with empty-result early return; specialty include; specialty and
name excludes; empty-result early return; per-row annotation; optional
only-accepting filter; three-key ascending sort; positive `limit`
truncation. -/
def searchClinicsNearPoint (hav : ℚ → ℚ → ℚ → ℚ → ℚ) (now : Int) (ds : Dataset)
    (base_lat base_lng radius_km : ℚ)
    (dept_keyword exclude_dept_keywords exclude_name_keywords : List Str)
    (only_accepting_now : Bool) (soon_close_threshold_min limit : Int) :
    Except Str (List OutRow) :=
  if ds.rows.isEmpty then Except.ok []
  else if !ds.hasLatCol || !ds.hasLngCol then Except.error keyErrorMsg
  else
    let work1 := coordRadiusStep hav base_lat base_lng radius_km ds.rows
    if work1.isEmpty then Except.ok []
    else
      let work4 := excludeNameStep exclude_name_keywords
        (excludeDeptStep exclude_dept_keywords (specialtyIncludeStep dept_keyword work1))
      if work4.isEmpty then Except.ok []
      else
        Except.ok (limitStep limit (sortStep dept_keyword
          (onlyAcceptingStep only_accepting_now
            (annotateStep now soon_close_threshold_min work4))))

/-- Whether a search result is sorted for `R` (vacuously true on the error
branch); lets claims about the sortedness of `Except`-wrapped results be
stated without binders. -/
def okPairwise (res : Except Str (List OutRow)) (R : OutRow → OutRow → Prop) : Prop :=
  match res with
  | Except.ok l => l.Pairwise R
  | Except.error _ => True

instance instDecOkPairwise (res : Except Str (List OutRow)) (R : OutRow → OutRow → Prop)
    [DecidableRel R] : Decidable (okPairwise res R) :=
  match res with
  | Except.ok l => inferInstanceAs (Decidable (l.Pairwise R))
  | Except.error _ => isTrue trivial

/-- The specialty texts of a search result, in result order. -/
def deptsOf (res : Except Str (List OutRow)) : List Str :=
  match res with
  | Except.ok l => l.map fun o => o.base.dept
  | Except.error _ => []

/-- A schedule with no reception columns filled in. -/
def noSched : Fin 7 → Option Str × Option Str := fun _ => (none, none)

/-- Concrete rows, datasets and distance functions used by the closed
counterexample and witness statements below.  The parametric `hav`
functions stand in for `_haversine_km` evaluated at the rows' coordinates. -/
def rowGeka : CRow where
  lat := some 0
  lng := some 0
  name := []
  dept := "外科".toList
  sched := noSched

def rowNaika : CRow where
  lat := some 0
  lng := some 1
  name := []
  dept := "内科".toList
  sched := noSched

def havByLng : ℚ → ℚ → ℚ → ℚ → ℚ := fun _ _ _ ln => if ln = 0 then 1 else 5

def havOne : ℚ → ℚ → ℚ → ℚ → ℚ := fun _ _ _ _ => 1

def havZero : ℚ → ℚ → ℚ → ℚ → ℚ := fun _ _ _ _ => 0

def dsC4 : Dataset := ⟨true, true, [rowGeka, rowNaika]⟩

def kwsC4 : List Str := [[], "内科".toList]

def rowHifu : CRow where
  lat := some 0
  lng := some 0
  name := []
  dept := "皮膚科".toList
  sched := noSched

def rowNaika0 : CRow where
  lat := some 0
  lng := some 0
  name := []
  dept := "内科".toList
  sched := noSched

def dsTied : Dataset := ⟨true, true, [rowHifu, rowNaika0]⟩

def kwsNaikaHifu : List Str := [ "内科".toList, "皮膚科".toList]

def dsEmptyNoCols : Dataset := ⟨false, false, []⟩

def dsNoLat : Dataset := ⟨false, true, [rowGeka]⟩

end MediGate

namespace MediGate

/-! Theorems. -/

/-- Claim C2: `_minutes_to_close` behaves exactly as the spec describes it
(day-category resolution, parse failures give `none`, midnight rollover by
adding 24 hours to the end, and the clamped floor of the remaining minutes
exactly on `start ≤ now ≤ end`). -/
theorem minutesToClose_eq_claim (r : CRow) (now : Int) :
    minutesToClose r now = minutesUntilCloseClaim r now := by
  have h24 : (24 * 60 * 60 : Int) = 86400 := by norm_num
  unfold minutesToClose minutesUntilCloseClaim
  rw [h24]
  cases hp : parseCell (r.sched (dayIdx (weekdayI now))).1 <;>
    cases hq : parseCell (r.sched (dayIdx (weekdayI now))).2 <;>
      simp [hp, hq, max_comm]

/-- Claim C1 (code bug): a facility open `22:00`–`02:00` queried at 01:00 of
the following calendar day (`now = 90000`, a Tuesday 01:00 with the epoch on
a Monday midnight) is reported `none` (not open) by `_minutes_to_close`,
even though `now` lies inside Monday's window rolled over past midnight
(`[Mon 22:00, Mon 02:00 + 24h]`), whose end would be 60 minutes away.  The
function anchors the window on `now`'s own date and day category, so the
post-midnight portion of a midnight-crossing window is never recognised. -/
theorem minutesToClose_postMidnight_bug :
    minutesToClose crossRow 90000 = none ∧
    makeDt 0 ⟨22, 0⟩ ≤ 90000 ∧ (90000 : Int) ≤ makeDt 0 ⟨2, 0⟩ + 86400 ∧
    (makeDt 0 ⟨2, 0⟩ + 86400 - 90000).fdiv 60 = 60 ∧
    parseHhmm ( "22:00".toList) = some ⟨22, 0⟩ ∧
    parseHhmm ( "02:00".toList) = some ⟨2, 0⟩ ∧
    weekdayI 90000 = 1 := by
  decide

theorem nextRecAux_no_zero (r : CRow) (now : Int) :
    ∀ l : List Nat, 0 ∉ l →
      nextRecAux r now l = l.findSome? (scanDayClaim r now)
  | [], _ => rfl
  | o :: rest, h => by
    have ho : o ≠ 0 := fun h0 => h (h0 ▸ List.mem_cons_self o rest)
    have ih := nextRecAux_no_zero r now rest (fun hm => h (List.mem_cons_of_mem o hm))
    unfold nextRecAux
    rw [List.findSome?_cons]
    cases hp : parseCell (r.sched (dayIdx (weekdayI now + (o : Int)))).1 with
    | none =>
      have hsd : scanDayClaim r now o = none := by
        unfold scanDayClaim
        rw [hp]
      simp [hp, hsd, ih]
    | some st =>
      cases hq : parseCell (r.sched (dayIdx (weekdayI now + (o : Int)))).2 with
      | none =>
        have hsd : scanDayClaim r now o = none := by
          unfold scanDayClaim
          rw [hp, hq]
        simp [hp, hq, hsd, ih]
      | some ed =>
        have hsd : scanDayClaim r now o = some (makeDt (dateOf now + (o : Int)) st) := by
          unfold scanDayClaim
          rw [hp, hq]
        simp [hp, hq, hsd, ho, ih]

/-- Claim C7: `_next_reception_start` behaves exactly as the spec describes
(offset 0: today's start when `now` is before it, `none` when `now` is
inside today's window, else continue; offsets `1..6`: the first day whose
two times parse yields its start; `none` when the scan finds nothing). -/
theorem nextReceptionStart_eq_claim (r : CRow) (now : Int) :
    nextReceptionStart r now = nextOpeningClaim r now := by
  have hr : List.range 7 = 0 :: [1, 2, 3, 4, 5, 6] := by decide
  have hr6 : List.range' 1 6 = [1, 2, 3, 4, 5, 6] := by decide
  have hnz : (0 : Nat) ∉ [1, 2, 3, 4, 5, 6] := by decide
  unfold nextReceptionStart nextOpeningClaim
  rw [hr, hr6]
  have haux := nextRecAux_no_zero r now [1, 2, 3, 4, 5, 6] hnz
  unfold nextRecAux
  simp only [Nat.cast_zero, add_zero, haux]
  cases hp : parseCell (r.sched (dayIdx (weekdayI now))).1 <;>
    cases hq : parseCell (r.sched (dayIdx (weekdayI now))).2 <;>
      simp [hp, hq]

/-- Claim C5 (counterexample): the input `"a930"` is neither a
colon-delimited time nor a purely numeric 3- or 4-digit string, yet
`_parse_hhmm` accepts it as 09:30, because the digits fallback strips every
non-digit character before counting digits. -/
theorem parseHhmm_nonNumeric_accepted :
    parseHhmm ( "a930".toList) = some ⟨9, 30⟩ ∧
    ( "a930".toList).all Char.isDigit = false ∧
    ( "a930".toList).contains ':' = false := by
  decide

theorem parseForms_bounded :
    ∀ hh < 24, ∀ mm < 60,
      parseHhmm (renderHour hh ++ ':' :: render2 mm) = some ⟨hh, mm⟩ ∧
      parseHhmm (render2 hh ++ ':' :: render2 mm) = some ⟨hh, mm⟩ ∧
      parseHhmm (render2 hh ++ render2 mm) = some ⟨hh, mm⟩ ∧
      (hh < 10 → parseHhmm (renderHour hh ++ render2 mm) = some ⟨hh, mm⟩) := by
  decide

/-- Claim C6: every valid time round-trips through `_parse_hhmm` in its
`"H:MM"` and `"HH:MM"` colon forms, and the 4-digit `HHMM` (and, for hours
below 10, 3-digit `HMM`) numeric forms parse to the same value. -/
theorem parseHhmm_roundtrip (hh mm : Nat) (h1 : hh ≤ 23) (h2 : mm ≤ 59) :
    parseHhmm (renderHour hh ++ ':' :: render2 mm) = some ⟨hh, mm⟩ ∧
    parseHhmm (render2 hh ++ ':' :: render2 mm) = some ⟨hh, mm⟩ ∧
    parseHhmm (render2 hh ++ render2 mm) = some ⟨hh, mm⟩ ∧
    (hh < 10 → parseHhmm (renderHour hh ++ render2 mm) = some ⟨hh, mm⟩) :=
  parseForms_bounded hh (by omega) mm (by omega)

theorem digitsBranch_eq_rule (t : Str) :
    digitsBranch t =
      (if (t.filter Char.isDigit).length = 3 then
        mkTodIfValid (digitsVal ((t.filter Char.isDigit).take 1))
          (digitsVal ((t.filter Char.isDigit).drop 1))
      else if (t.filter Char.isDigit).length = 4 then
        mkTodIfValid (digitsVal ((t.filter Char.isDigit).take 2))
          (digitsVal ((t.filter Char.isDigit).drop 2))
      else none) := by
  unfold digitsBranch mkTodIfValid
  by_cases h3 : (t.filter Char.isDigit).length = 3
  · rcases List.length_eq_three.mp h3 with ⟨a, b, c, habc⟩
    rw [habc]
    simp [digitsVal]
  · simp [h3]

theorem digitsBranch_strip_eq_rule (s : Str) :
    digitsBranch (pyStrip s) = digitRuleClaim s := by
  rw [digitsBranch_eq_rule]
  rfl

theorem parseHhmm_eq_claim (s : Str) : parseHhmm s = parseTimeOfDayClaim s := by
  unfold parseHhmm parseTimeOfDayClaim
  dsimp only []
  by_cases he : (pyStrip s).isEmpty = true
  · have hnil : pyStrip s = [] := List.isEmpty_iff.mp he
    rw [if_pos he, hnil, if_neg (by decide)]
    unfold digitRuleClaim
    rw [hnil]
    simp
  · rw [if_neg he, ← digitsBranch_strip_eq_rule s]

/-- Claim C5 (amended): `_parse_hhmm` behaves, on every input, exactly as
the amended claim describes (`parseTimeOfDayClaim`): a colon-bearing string
whose first two colon fields parse as integers returns the in-range pair
directly, while an out-of-range pair falls through to the digit rule — so
`"1:234"` parses to 12:34 — and an unparseable field gives `none`; all
other inputs are handled by the digit rule alone: after stripping and
removing non-digit characters, exactly 3 or 4 remaining digits are read as
`HMM`/`HHMM` under the same range checks, so the empty string, digit-free
strings such as `"abcd"`, and out-of-range values such as `"25:99"` (whose
stripped digits `2599` also fail the range check) give `none`; no input
raises (the embedding is total). -/
theorem parseHhmm_amended :
    (∀ s : Str, parseHhmm s = parseTimeOfDayClaim s) ∧
    parseHhmm ( "1:234".toList) = some ⟨12, 34⟩ ∧
    parseHhmm ( "".toList) = none ∧
    parseHhmm ( "25:99".toList) = none ∧
    parseHhmm ( "abcd".toList) = none :=
  ⟨parseHhmm_eq_claim, by decide, by decide, by decide, by decide⟩

/-- Witness for claim C6 at 09:30. -/
theorem parseHhmm_roundtrip_witness :
    9 ≤ 23 ∧ 30 ≤ 59 ∧
      (parseHhmm (renderHour 9 ++ ':' :: render2 30) = some ⟨9, 30⟩ ∧
       parseHhmm (render2 9 ++ ':' :: render2 30) = some ⟨9, 30⟩ ∧
       parseHhmm (render2 9 ++ render2 30) = some ⟨9, 30⟩ ∧
       (9 < 10 → parseHhmm (renderHour 9 ++ render2 30) = some ⟨9, 30⟩)) :=
  ⟨by decide, by decide, parseHhmm_roundtrip 9 30 (by decide) (by decide)⟩

theorem cleanTime_ne_nil (v0 t : Str) (h : cleanTime v0 = some t) : t ≠ [] := by
  unfold cleanTime at h
  by_cases hc : pyStrip v0 = [] ∨ pyLower (pyStrip v0) = ( "nan".toList) ∨
      pyStrip v0 = ( "0".toList)
  · rw [if_pos hc] at h
    exact Option.noConfusion h
  · rw [if_neg hc] at h
    push_neg at hc
    rw [Option.some_inj] at h
    rw [← h]
    exact hc.1

theorem foldl_pick_mem (f : Str → Str → Str) (hf : ∀ a b, f a b = a ∨ f a b = b) :
    ∀ (vs : List Str) (v : Str), vs.foldl f v ∈ v :: vs
  | [], _ => by simp
  | b :: bs, v => by
    simp only [List.foldl_cons]
    have h2 := foldl_pick_mem f hf bs (f v b)
    rcases hf v b with h | h <;> rw [h] at h2 ⊢
    · rcases List.mem_cons.mp h2 with h3 | h3
      · rw [h3]
        exact List.mem_cons_self _ _
      · exact List.mem_cons_of_mem _ (List.mem_cons_of_mem _ h3)
    · exact List.mem_cons_of_mem _ h2

theorem minTime_eq_nil_iff (l : List Str) :
    minTime l = [] ↔ l.filterMap cleanTime = [] := by
  unfold minTime
  cases hfm : l.filterMap cleanTime with
  | nil => simp
  | cons v vs =>
    constructor
    · intro hnil
      exfalso
      have hmem : vs.foldl (fun acc b => if strLt b acc then b else acc) v ∈ v :: vs :=
        foldl_pick_mem _ (fun a b => by by_cases h : strLt b a <;> simp [h]) vs v
      rw [← hfm] at hmem
      rcases List.mem_filterMap.mp hmem with ⟨a, _, ha⟩
      exact cleanTime_ne_nil a _ ha hnil
    · intro h
      exact absurd h (by simp)

theorem maxTime_eq_nil_iff (l : List Str) :
    maxTime l = [] ↔ l.filterMap cleanTime = [] := by
  unfold maxTime
  cases hfm : l.filterMap cleanTime with
  | nil => simp
  | cons v vs =>
    constructor
    · intro hnil
      exfalso
      have hmem : vs.foldl (fun acc b => if strLt acc b then b else acc) v ∈ v :: vs :=
        foldl_pick_mem _ (fun a b => by by_cases h : strLt a b <;> simp [h]) vs v
      rw [← hfm] at hmem
      rcases List.mem_filterMap.mp hmem with ⟨a, _, ha⟩
      exact cleanTime_ne_nil a _ ha hnil
    · intro h
      exact absurd h (by simp)

/-- Claim C8 (counterexample): a facility with a single specialty row whose
day cells are start `"09:00"`, end `""` produces a merged row with a
present start time and an absent end time — the builder aggregates the two
columns independently and nothing enforces the pairing. -/
theorem mergeDayCell_unpaired :
    (mergeDayCell [ "09:00".toList] [ "".toList]).1 ≠ [] ∧
    (mergeDayCell [ "09:00".toList] [ "".toList]).2 = [] := by
  decide

/-- Claim C8 (amended): provided each specialty row's start/end cell pair
for the day survives or fails the builder's cleaning together (strip; empty,
"nan" and "0" count as absent), the aggregated start and end of the merged
facility row are both present or both absent. -/
theorem mergeDayCell_paired (starts ends : List Str)
    (h : List.Forall₂ (fun s e => (cleanTime s).isSome = (cleanTime e).isSome) starts ends) :
    ((mergeDayCell starts ends).1 = [] ↔ (mergeDayCell starts ends).2 = []) := by
  have key : (starts.filterMap cleanTime = [] ↔ ends.filterMap cleanTime = []) := by
    induction h with
    | nil => simp
    | cons hab htail ih =>
      rename_i a b la lb
      cases ha : cleanTime a with
      | none =>
        cases hb : cleanTime b with
        | none => simpa [List.filterMap_cons, ha, hb] using ih
        | some y => rw [ha, hb] at hab; simp at hab
      | some x =>
        cases hb : cleanTime b with
        | none => rw [ha, hb] at hab; simp at hab
        | some y => simp [List.filterMap_cons, ha, hb]
  unfold mergeDayCell
  rw [minTime_eq_nil_iff, maxTime_eq_nil_iff]
  exact key

/-- Witness for the amended claim C8 on a one-row group with a paired
window `09:00`–`17:00`. -/
theorem mergeDayCell_paired_witness :
    List.Forall₂ (fun s e => (cleanTime s).isSome = (cleanTime e).isSome)
      [ "09:00".toList] [ "17:00".toList] ∧
    ((mergeDayCell [ "09:00".toList] [ "17:00".toList]).1 = [] ↔
      (mergeDayCell [ "09:00".toList] [ "17:00".toList]).2 = []) :=
  ⟨List.Forall₂.cons (by decide) List.Forall₂.nil,
    mergeDayCell_paired _ _ (List.Forall₂.cons (by decide) List.Forall₂.nil)⟩

/-- Claim C10: the value `_haversine_km` passes to `math.asin` is
`min(1.0, sqrt(a))`, which always lies in `[-1, 1]` (the clamp bounds it
above by 1 and the square root is nonnegative), so the inverse sine is only
applied inside its domain; the returned distance is exactly
`2 * asin(min(1.0, sqrt(a))) * 6371.0`. -/
theorem haversine_asinArg_in_domain (lat1 lng1 lat2 lng2 : ℝ) :
    -1 ≤ asinArgClamped lat1 lng1 lat2 lng2 ∧
    asinArgClamped lat1 lng1 lat2 lng2 ≤ 1 ∧
    haversineKm lat1 lng1 lat2 lng2 =
      2 * Real.arcsin (asinArgClamped lat1 lng1 lat2 lng2) * 6371.0 := by
  refine ⟨?_, min_le_left _ _, rfl⟩
  have h0 : (0 : ℝ) ≤ min 1 (Real.sqrt (haversineA lat1 lng1 lat2 lng2)) :=
    le_min (by norm_num) (Real.sqrt_nonneg _)
  unfold asinArgClamped
  linarith

theorem isSubstr_iff (a b : Str) : isSubstr a b = true ↔ a <:+: b := by
  unfold isSubstr
  rw [List.any_eq_true]
  constructor
  · rintro ⟨i, _, hp⟩
    exact ((List.isPrefixOf_iff_prefix.mp hp).isInfix).trans (List.drop_suffix i b).isInfix
  · rintro ⟨u, v, huv⟩
    refine ⟨u.length, ?_, ?_⟩
    · rw [List.mem_range, ← huv]
      simp [List.length_append]
      omega
    · rw [← huv, List.append_assoc, List.drop_left]
      exact List.isPrefixOf_iff_prefix.mpr (List.prefix_append a v)

theorem beq_eq_decide_eq (p c : Char) : (p == c) = decide (p = c) := by
  cases Decidable.em (p = c) with
  | inl h => subst h; simp
  | inr h => simp [h, beq_eq_false_iff_ne.mpr h]

theorem branchMatchesPrefix_of_noDot (b : Str) (hb : ∀ c ∈ b, c ≠ '.') :
    ∀ s, branchMatchesPrefix b s = b.isPrefixOf s := by
  induction b with
  | nil => intro s; cases s <;> rfl
  | cons p ps ih =>
    intro s
    cases s with
    | nil => rfl
    | cons c cs =>
      have hp : p ≠ '.' := hb p (List.mem_cons_self p ps)
      show (atomMatches p c && branchMatchesPrefix ps cs) = (p == c && ps.isPrefixOf cs)
      unfold atomMatches
      rw [if_neg hp, ih (fun c hc => hb c (List.mem_cons_of_mem _ hc)) cs,
        beq_eq_decide_eq]

theorem reContains_join_literal (kws : List Str) (s : Str) (hne : kws ≠ [])
    (hmeta : ∀ kw ∈ kws, ∀ c ∈ kw, isReMeta c = false) :
    reContains (joinPat kws) s = kws.any fun kw => isSubstr kw s := by
  have hsplit : (joinPat kws).splitOn '|' = kws := by
    unfold joinPat
    exact List.splitOn_intercalate kws '|'
      (fun l hl hbar => by
        have hm := hmeta l hl '|' hbar
        simp [isReMeta] at hm)
      hne
  have hnd : ∀ kw ∈ kws, ∀ c ∈ kw, c ≠ '.' := fun kw hkw c hc heq => by
    have hm := hmeta kw hkw c hc
    rw [heq] at hm
    simp [isReMeta] at hm
  unfold reContains
  rw [hsplit, Bool.eq_iff_iff, List.any_eq_true, List.any_eq_true]
  constructor
  · rintro ⟨i, hi, hb⟩
    rw [List.any_eq_true] at hb
    rcases hb with ⟨kw, hkw, hbm⟩
    refine ⟨kw, hkw, ?_⟩
    rw [branchMatchesPrefix_of_noDot kw (hnd kw hkw)] at hbm
    unfold isSubstr
    exact List.any_eq_true.mpr ⟨i, hi, hbm⟩
  · rintro ⟨kw, hkw, hsub⟩
    unfold isSubstr at hsub
    rw [List.any_eq_true] at hsub
    rcases hsub with ⟨i, hi, hp⟩
    refine ⟨i, hi, List.any_eq_true.mpr ⟨kw, hkw, ?_⟩⟩
    rw [branchMatchesPrefix_of_noDot kw (hnd kw hkw)]
    exact hp

/-- Claim C3 (counterexample): with the single required-specialty keyword
`"."`, the include step of `search_clinics_near_point` retains a row whose
specialty text `"内科"` does not contain `"."` as a literal substring — the
keywords are joined into a regular expression, where `.` matches any
character, so the filter is not literal-substring retention for all keyword
strings. -/
theorem includeStep_dot_counterexample :
    ((specialtyIncludeStep [[ '.' ]] [(rowNaika0, 1)]).map fun rl => rl.1.dept) =
      [ "内科".toList] ∧
    isSubstr [ '.' ] rowNaika0.dept = false := by
  decide

/-- Claim C3 (amended): for a non-empty keyword list whose keywords are
free of regular-expression metacharacters, the include step retains exactly
the rows whose specialty text contains at least one keyword as a
case-sensitive literal substring (OR semantics); for arbitrary keyword
strings the retained rows are instead those matching the joined pattern as
a regular expression. -/
theorem includeStep_literal_or (kws : List Str) (work : List (CRow × ℚ))
    (hne : kws ≠ []) (hmeta : ∀ kw ∈ kws, ∀ c ∈ kw, isReMeta c = false) :
    specialtyIncludeStep kws work =
      work.filter fun rl => kws.any fun kw => isSubstr kw rl.1.dept := by
  unfold specialtyIncludeStep
  rw [if_neg (by simp [List.isEmpty_eq_false.mpr hne])]
  exact List.filter_congr fun rl _ => reContains_join_literal kws rl.1.dept hne hmeta

/-- Witness for the amended claim C3 at the keywords `["内科", "皮膚科"]`
over a two-row working set. -/
theorem includeStep_literal_or_witness :
    kwsNaikaHifu ≠ [] ∧
    (∀ kw ∈ kwsNaikaHifu, ∀ c ∈ kw, isReMeta c = false) ∧
    specialtyIncludeStep kwsNaikaHifu [(rowNaika0, 1), (rowGeka, 1)] =
      [(rowNaika0, 1), (rowGeka, 1)].filter
        fun rl => kwsNaikaHifu.any fun kw => isSubstr kw rl.1.dept :=
  ⟨by decide, by decide, includeStep_literal_or _ _ (by decide) (by decide)⟩

theorem mkTodIfValid_bounds (hh mm : Nat) (t : Tod) (h : mkTodIfValid hh mm = some t) :
    t.hour ≤ 23 ∧ t.minute ≤ 59 := by
  unfold mkTodIfValid at h
  split at h
  · rw [Option.some_inj] at h
    subst h
    rename_i hr
    exact ⟨hr.1, hr.2⟩
  · exact Option.noConfusion h

theorem digitsBranch_bounds (s : Str) (t : Tod) (h : digitsBranch s = some t) :
    t.hour ≤ 23 ∧ t.minute ≤ 59 := by
  rw [digitsBranch_eq_rule] at h
  split at h
  · exact mkTodIfValid_bounds _ _ _ h
  · split at h
    · exact mkTodIfValid_bounds _ _ _ h
    · exact Option.noConfusion h

theorem parseHhmm_bounds (s : Str) (t : Tod) (h : parseHhmm s = some t) :
    t.hour ≤ 23 ∧ t.minute ≤ 59 := by
  unfold parseHhmm at h
  dsimp only [] at h
  split at h
  · exact Option.noConfusion h
  · split at h
    · split at h
      · split at h
        · split at h
          · rw [Option.some_inj] at h
            subst h
            rename_i hr _
            refine ⟨?_, ?_⟩ <;> simp <;> omega
          · exact digitsBranch_bounds _ _ h
        · exact Option.noConfusion h
      · exact digitsBranch_bounds _ _ h
    · exact digitsBranch_bounds _ _ h

theorem parseCell_bounds (x : Option Str) (t : Tod) (h : parseCell x = some t) :
    t.hour ≤ 23 ∧ t.minute ≤ 59 := by
  cases x with
  | none => exact Option.noConfusion h
  | some s => exact parseHhmm_bounds s t h

theorem minutesToClose_bounds (r : CRow) (now m : Int)
    (h : minutesToClose r now = some m) : 0 ≤ m ∧ m ≤ 1440 := by
  unfold minutesToClose at h
  dsimp only [] at h
  cases hp : parseCell (r.sched (dayIdx (weekdayI now))).1 with
  | none => rw [hp] at h; simp at h
  | some st =>
    cases hq : parseCell (r.sched (dayIdx (weekdayI now))).2 with
    | none => rw [hp, hq] at h; simp at h
    | some ed =>
      rw [hp, hq] at h
      dsimp only [] at h
      have hst := parseCell_bounds _ _ hp
      have hed := parseCell_bounds _ _ hq
      split at h
      · split at h
        · rw [Option.some_inj] at h
          subst h
          rename_i hroll hwin
          refine ⟨le_max_right _ _, max_le ?_ (by norm_num)⟩
          rw [Int.fdiv_eq_ediv _ (by norm_num)]
          unfold makeDt at hroll hwin ⊢
          omega
        · exact Option.noConfusion h
      · split at h
        · rw [Option.some_inj] at h
          subst h
          rename_i hroll hwin
          refine ⟨le_max_right _ _, max_le ?_ (by norm_num)⟩
          rw [Int.fdiv_eq_ediv _ (by norm_num)]
          unfold makeDt at hroll hwin ⊢
          omega
        · exact Option.noConfusion h

theorem sortRel_total (kws : List Str) : ∀ a b : OutRow, sortRel kws a b ∨ sortRel kws b a := by
  intro a b
  unfold sortRel
  rcases lt_trichotomy (sortDeptPriority kws a) (sortDeptPriority kws b) with h | h | h
  · exact Or.inl (Or.inl h)
  · rcases lt_trichotomy (sortMins a) (sortMins b) with h2 | h2 | h2
    · exact Or.inl (Or.inr ⟨h, Or.inl h2⟩)
    · rcases le_total a.distance_km b.distance_km with h3 | h3
      · exact Or.inl (Or.inr ⟨h, Or.inr ⟨h2, h3⟩⟩)
      · exact Or.inr (Or.inr ⟨h.symm, Or.inr ⟨h2.symm, h3⟩⟩)
    · exact Or.inr (Or.inr ⟨h.symm, Or.inl h2⟩)
  · exact Or.inr (Or.inl h)

theorem sortRel_trans (kws : List Str) :
    ∀ a b c : OutRow, sortRel kws a b → sortRel kws b c → sortRel kws a c := by
  intro a b c hab hbc
  unfold sortRel at hab hbc ⊢
  rcases hab with h1 | ⟨e1, m1⟩
  · rcases hbc with h2 | ⟨e2, m2⟩
    · exact Or.inl (h1.trans h2)
    · exact Or.inl (e2 ▸ h1)
  · rcases hbc with h2 | ⟨e2, m2⟩
    · exact Or.inl (lt_of_le_of_lt (le_of_eq e1) h2)
    · refine Or.inr ⟨e1.trans e2, ?_⟩
      rcases m1 with hm1 | ⟨em1, hd1⟩
      · rcases m2 with hm2 | ⟨em2, hd2⟩
        · exact Or.inl (hm1.trans hm2)
        · exact Or.inl (em2 ▸ hm1)
      · rcases m2 with hm2 | ⟨em2, hd2⟩
        · exact Or.inl (lt_of_le_of_lt (le_of_eq em1) hm2)
        · exact Or.inr ⟨em1.trans em2, hd1.trans hd2⟩

theorem sortMins_none (o : OutRow) (h : o.minutes_to_close = none) :
    sortMins o = 10 ^ 9 := by
  unfold sortMins
  rw [h]
  rfl

theorem sortMins_some (o : OutRow) (m : Int) (h : o.minutes_to_close = some m) :
    sortMins o = m := by
  unfold sortMins
  rw [h]
  rfl

theorem minsTop_none (o : OutRow) (h : o.minutes_to_close = none) :
    minsTop o = ⊤ := by
  unfold minsTop
  rw [h]

theorem minsTop_some (o : OutRow) (m : Int) (h : o.minutes_to_close = some m) :
    minsTop o = (m : WithTop Int) := by
  unfold minsTop
  rw [h]

theorem sortRel_imp_amended (kws : List Str) (a b : OutRow)
    (_ha : ∀ m, a.minutes_to_close = some m → 0 ≤ m ∧ m ≤ 1440)
    (hb : ∀ m, b.minutes_to_close = some m → 0 ≤ m ∧ m ≤ 1440)
    (h : sortRel kws a b) : amendedKeyLE kws a b := by
  unfold sortRel at h
  unfold amendedKeyLE
  rcases h with h1 | ⟨e1, m1⟩
  · exact Or.inl h1
  · refine Or.inr ⟨e1, ?_⟩
    cases hma : a.minutes_to_close with
    | none =>
      cases hmb : b.minutes_to_close with
      | none =>
        rw [sortMins_none a hma, sortMins_none b hmb] at m1
        rcases m1 with hlt | ⟨_, hd⟩
        · exact absurd hlt (by norm_num)
        · rw [minsTop_none a hma, minsTop_none b hmb]
          exact Or.inr ⟨rfl, hd⟩
      | some y =>
        have hyb := hb y hmb
        rw [sortMins_none a hma, sortMins_some b y hmb] at m1
        rcases m1 with hlt | ⟨heq, _⟩
        · exfalso; omega
        · exfalso; omega
    | some x =>
      cases hmb : b.minutes_to_close with
      | none =>
        rw [minsTop_some a x hma, minsTop_none b hmb]
        exact Or.inl (WithTop.coe_lt_top x)
      | some y =>
        rw [sortMins_some a x hma, sortMins_some b y hmb] at m1
        rw [minsTop_some a x hma, minsTop_some b y hmb]
        rcases m1 with hlt | ⟨heq, hd⟩
        · exact Or.inl (WithTop.coe_lt_coe.mpr hlt)
        · exact Or.inr ⟨by exact_mod_cast heq, hd⟩

theorem pairwise_insertionSort_amended (kws : List Str) (l : List OutRow)
    (hl : ∀ o ∈ l, ∀ m, o.minutes_to_close = some m → 0 ≤ m ∧ m ≤ 1440) :
    (l.insertionSort (sortRel kws)).Pairwise (amendedKeyLE kws) := by
  haveI : IsTotal OutRow (sortRel kws) := ⟨sortRel_total kws⟩
  haveI : IsTrans OutRow (sortRel kws) := ⟨sortRel_trans kws⟩
  have hsorted := List.sorted_insertionSort (sortRel kws) l
  exact List.Pairwise.imp_of_mem
    (fun ha hb hab => sortRel_imp_amended kws _ _
      (hl _ ((List.mem_insertionSort _).mp ha)) (hl _ ((List.mem_insertionSort _).mp hb)) hab)
    hsorted

theorem mapped_bounds (now soon : Int) (work : List (CRow × ℚ)) :
    ∀ o ∈ annotateStep now soon work,
      ∀ m, o.minutes_to_close = some m → 0 ≤ m ∧ m ≤ 1440 := by
  intro o ho m hm
  rcases List.mem_map.mp ho with ⟨rl, _, hrl⟩
  rw [← hrl] at hm
  exact minutesToClose_bounds rl.1 now m hm

theorem pairwise_limitSort (kws : List Str) (now soon : Int) (oa : Bool) (limit : Int)
    (work : List (CRow × ℚ)) :
    (limitStep limit (sortStep kws (onlyAcceptingStep oa (annotateStep now soon work)))).Pairwise
      (amendedKeyLE kws) := by
  have hbase : ∀ o ∈ onlyAcceptingStep oa (annotateStep now soon work),
      ∀ m, o.minutes_to_close = some m → 0 ≤ m ∧ m ≤ 1440 := by
    intro o ho
    unfold onlyAcceptingStep at ho
    split at ho
    · exact mapped_bounds now soon work o (List.mem_filter.mp ho).1
    · exact mapped_bounds now soon work o ho
  have hP := pairwise_insertionSort_amended kws _ hbase
  unfold limitStep
  split
  · exact List.Pairwise.sublist (List.take_sublist _ _) hP
  · exact hP

theorem search_ok_pairwise (hav : ℚ → ℚ → ℚ → ℚ → ℚ) (now : Int) (ds : Dataset)
    (blat blng radius : ℚ) (kws exd exn : List Str) (oa : Bool) (soon limit : Int)
    (out : List OutRow)
    (h : searchClinicsNearPoint hav now ds blat blng radius kws exd exn oa soon limit =
      Except.ok out) :
    out.Pairwise (amendedKeyLE kws) := by
  unfold searchClinicsNearPoint at h
  split at h
  · simp only [Except.ok.injEq] at h
    subst h
    exact List.Pairwise.nil
  · split at h
    · exact Except.noConfusion h
    · dsimp only [] at h
      split at h
      · simp only [Except.ok.injEq] at h
        subst h
        exact List.Pairwise.nil
      · split at h
        · simp only [Except.ok.injEq] at h
          subst h
          exact List.Pairwise.nil
        · simp only [Except.ok.injEq] at h
          subst h
          exact pairwise_limitSort kws now soon oa limit _

theorem rowDeptPriorityAux_findIdx :
    ∀ (kws : List Str) (i : Nat) (s : Str), (∀ kw ∈ kws, kw ≠ []) →
      (∃ kw ∈ kws, kw <:+: s) →
      rowDeptPriorityAux kws i s = i + kws.findIdx fun kw => decide (kw <:+: s)
  | [], _, s, _, hex => by
    rcases hex with ⟨kw, h, _⟩
    exact absurd h (List.not_mem_nil kw)
  | kw :: rest, i, s, hne, hex => by
    unfold rowDeptPriorityAux
    simp only [List.findIdx_cons]
    by_cases hm : kw <:+: s
    · rw [if_pos ⟨hne kw (List.mem_cons_self kw rest), hm⟩, decide_eq_true hm]
      simp only [cond_true]
      omega
    · rw [if_neg (fun hc => hm hc.2), decide_eq_false hm]
      simp only [cond_false]
      have hex2 : ∃ k ∈ rest, k <:+: s := by
        rcases hex with ⟨k, hk, hks⟩
        rcases List.mem_cons.mp hk with rfl | hk2
        · exact absurd hks hm
        · exact ⟨k, hk2, hks⟩
      rw [rowDeptPriorityAux_findIdx rest (i + 1) s
        (fun k hk => hne k (List.mem_cons_of_mem _ hk)) hex2]
      omega

/-- Claim C4 (counterexample): with the keyword list `["", "内科"]` the
claimed sort key is violated — the empty keyword is contained in every
specialty text, so the claimed priority rank (index of the first keyword
contained) is 0 for every row, making two none-minutes rows compare by
distance; but the code skips empty (falsy) keywords, ranks the `内科` row
1 and the non-matching row 999, and returns the farther `内科` row first. -/
theorem search_claimKey_counterexample :
    ¬ okPairwise (searchClinicsNearPoint havByLng 0 dsC4 0 0 10 kwsC4 [] [] false 30 10)
        (claimKeyLE kwsC4) := by
  decide

/-- Claim C4 (amended): search results are sorted ascending by the key
(priority rank, minutes-until-close with `none` treated as `+∞`, distance),
where the priority rank is the index of the first *non-empty*
required-specialty keyword contained in the row's specialty text (999 when
none is) and 0 for every row when no keywords were supplied; with keywords
`["内科", "皮膚科"]`, an otherwise-tied row matching `内科` orders before
one matching `皮膚科`. -/
theorem search_sorted_amended :
    (∀ hav now ds blat blng radius kws exd exn oa soon limit out,
        searchClinicsNearPoint hav now ds blat blng radius kws exd exn oa soon limit =
          Except.ok out → out.Pairwise (amendedKeyLE kws)) ∧
    (∀ o : OutRow, sortDeptPriority [] o = 0) ∧
    (∀ kws s, (∀ kw ∈ kws, kw ≠ []) → (∃ kw ∈ kws, kw <:+: s) →
        rowDeptPriority kws s = kws.findIdx fun kw => decide (kw <:+: s)) ∧
    deptsOf (searchClinicsNearPoint havOne 0 dsTied 0 0 10 kwsNaikaHifu [] [] false 30 10) =
      [ "内科".toList, "皮膚科".toList] :=
  ⟨fun hav now ds blat blng radius kws exd exn oa soon limit out h =>
      search_ok_pairwise hav now ds blat blng radius kws exd exn oa soon limit out h,
   fun _ => rfl,
   fun kws s h1 h2 => by
      unfold rowDeptPriority
      rw [rowDeptPriorityAux_findIdx kws 0 s h1 h2]
      omega,
   by decide⟩

/-- Witness for the amended claim C4: the two-row tied dataset with
keywords `["内科", "皮膚科"]` comes out pairwise-sorted for the amended
key, and the priority of the `内科` row is its claimed first-match index. -/
theorem search_sorted_amended_witness :
    okPairwise (searchClinicsNearPoint havOne 0 dsTied 0 0 10 kwsNaikaHifu [] [] false 30 10)
      (amendedKeyLE kwsNaikaHifu) ∧
    rowDeptPriority kwsNaikaHifu ( "内科".toList) =
      kwsNaikaHifu.findIdx fun kw => decide (kw <:+: ( "内科".toList)) := by
  constructor
  · cases hres : searchClinicsNearPoint havOne 0 dsTied 0 0 10 kwsNaikaHifu [] [] false 30 10 with
    | ok l =>
      exact search_sorted_amended.1 havOne 0 dsTied 0 0 10 kwsNaikaHifu [] [] false 30 10 l hres
    | error e =>
      trivial
  · exact search_sorted_amended.2.2.1 kwsNaikaHifu ( "内科".toList) (by decide)
      ⟨ "内科".toList, by decide, by decide⟩

/-- Claim C9 (counterexample): a dataset that is empty and misses both
coordinate columns makes `search_clinics_near_point` return an empty result
(the `df.empty` early return precedes the column check), not raise the
schema error the claim requires for every dataset missing the columns. -/
theorem search_missingCols_emptyDs_silent :
    dsEmptyNoCols.hasLatCol = false ∧ dsEmptyNoCols.hasLngCol = false ∧
    searchClinicsNearPoint havZero 0 dsEmptyNoCols 0 0 2 [] [] [] false 30 10 =
      Except.ok [] :=
  ⟨rfl, rfl, rfl⟩

/-- Claim C9 (amended): for every dataset with at least one row in which
the latitude or the longitude column is missing, `search_clinics_near_point`
raises the `KeyError` (modelled as the `Except.error` outcome) instead of
returning a result. -/
theorem search_missingCols_raises (hav : ℚ → ℚ → ℚ → ℚ → ℚ) (now : Int) (ds : Dataset)
    (blat blng radius : ℚ) (kws exd exn : List Str) (oa : Bool) (soon limit : Int)
    (hrows : ds.rows ≠ []) (hcols : ds.hasLatCol = false ∨ ds.hasLngCol = false) :
    searchClinicsNearPoint hav now ds blat blng radius kws exd exn oa soon limit =
      Except.error keyErrorMsg := by
  unfold searchClinicsNearPoint
  have h1 : ds.rows.isEmpty = false := List.isEmpty_eq_false.mpr hrows
  rcases hcols with h | h <;> simp [h1, h]

/-- Witness for the amended claim C9 on a one-row dataset missing the
latitude column. -/
theorem search_missingCols_raises_witness :
    dsNoLat.rows ≠ [] ∧ (dsNoLat.hasLatCol = false ∨ dsNoLat.hasLngCol = false) ∧
    searchClinicsNearPoint havZero 0 dsNoLat 0 0 2 [] [] [] false 30 10 =
      Except.error keyErrorMsg :=
  ⟨List.cons_ne_nil _ _, Or.inl rfl,
    search_missingCols_raises havZero 0 dsNoLat 0 0 2 [] [] [] false 30 10
      (List.cons_ne_nil _ _) (Or.inl rfl)⟩

end MediGate
